import Mathlib

set_option maxRecDepth 20000

/-!
Shallow embedding of the `ws` package: a server-side WebSocket handshake and
frame codec (`Upgrade`, `connImpl.Read`, `connImpl.Write`, `hashKey`,
`getDataFrame`).  Bytes are modelled as `Nat` (values `< 256` where it
matters), the buffered transport as a list of bytes consumed from the front,
and Go's `(n, err)` returns together with the mutable connection state as an
explicit `ReadOutcome` record.
-/

/-! ### Opcode constants (source: `const` block) -/

def opCodeContinuation : Nat := 0x0

def opCodeText : Nat := 0x1

def opCodeBinary : Nat := 0x2

def opCodeClose : Nat := 0x8

def opCodePing : Nat := 0x9

def opCodePong : Nat := 0xA

def magicWebsocketGUID : String := "258EAFA5-E914-47DA-95CA-C5AB0DC85B11"

/-! ### Errors returned by `connImpl.Read` -/

/-- The distinct error values `connImpl.Read` can return: a transport I/O
error (short read), `errors.New "connection closed"`, and
`errors.New "unknown opcode"`. -/
inductive ReadError where
  | ioError
  | connectionClosed
  | unknownOpcode
  deriving DecidableEq, Repr

/-- Result of one call to `connImpl.Read`: the returned count `n`, the bytes
written into the destination `p` (`data`, a prefix of `p` of length `n`),
the new value of the connection's leftover buffer `c.buffer` (`[]` models Go
`nil`), the remaining unconsumed transport bytes, and the returned error. -/
structure ReadOutcome where
  n : Nat
  data : List Nat
  buffer : List Nat
  stream : List Nat
  err : Option ReadError
  deriving DecidableEq, Repr

/-- Error outcome used by every `return 0, err` path of the read loop:
count 0, nothing delivered, buffer left `nil` (the loop only runs with an
empty buffer and the error paths never assign it). -/
def ioOutcome (s : List Nat) : ReadOutcome := ⟨0, [], [], s, some .ioError⟩

/-! ### Masking (source: the `payload[i] ^= mask[i%4]` loop) -/

/-- The unmasking loop of `connImpl.Read` starting at index `i`:
`payload[i] ^= mask[i%4]`. -/
def applyMaskAux (mask : List Nat) : Nat → List Nat → List Nat
  | _, [] => []
  | i, b :: bs => (b ^^^ mask.getD (i % 4) 0) :: applyMaskAux mask (i + 1) bs

/-- In-place XOR of the payload with the 4-byte mask key, cycled byte-wise. -/
def applyMask (mask payload : List Nat) : List Nat :=
  applyMaskAux mask 0 payload

/-! ### The transport -/

/-- An exact read of `k` bytes from the buffered transport (`c.rw.Read` into
a `k`-byte slice); fails when fewer than `k` bytes are available. -/
def readExact (k : Nat) (s : List Nat) : Option (List Nat × List Nat) :=
  if k ≤ s.length then some (s.take k, s.drop k) else none

/-! ### Decode (source: `connImpl.Read`, text/binary arm) -/

/-- The tail of the text/binary arm of `connImpl.Read` once `payloadLength`
is final: read the 4 mask-key bytes, read `payloadLength` payload bytes,
unmask in place, then either deliver the whole payload (`return len(payload)`)
or copy what fits and park the remainder in `c.buffer`. -/
def afterLength (pcap payloadLength : Nat) (s : List Nat) : ReadOutcome :=
  match readExact 4 s with
  | none => ioOutcome s
  | some (mask, s1) =>
    match readExact payloadLength s1 with
    | none => ioOutcome s1
    | some (masked, s2) =>
      let payload := applyMask mask masked
      if payloadLength > pcap then
        ⟨pcap, payload.take pcap, payload.drop pcap, s2, none⟩
      else
        ⟨payload.length, payload, [], s2, none⟩

/-- The extended-length logic of the text/binary arm: base length `126` pulls
a 2-byte big-endian extension, `127` an 8-byte big-endian extension, anything
else is final, exactly as the shift/or expressions in the source.  Caveat:
the source computes the 8-byte extension in a signed 64-bit Go `int`, which
wraps negative when the top bit is set (value `>= 2^63`) and then panics at
`make([]byte, payloadLength)`; this `Nat` model agrees with the source only
for lengths below `2^63`, so theorems about the 8-byte arm carry that bound
and say nothing about the panicking region. -/
def readLenThen (pcap payloadLength : Nat) (rest : List Nat) : ReadOutcome :=
  if payloadLength = 0x7E then
    match readExact 2 rest with
    | none => ioOutcome rest
    | some (ext, r) =>
      afterLength pcap (ext.getD 0 0 <<< 0x08 ||| ext.getD 1 0) r
  else if payloadLength = 0x7F then
    match readExact 8 rest with
    | none => ioOutcome rest
    | some (ext, r) =>
      afterLength pcap
        (ext.getD 0 0 <<< 0x38 ||| ext.getD 1 0 <<< 0x30 |||
         ext.getD 2 0 <<< 0x28 ||| ext.getD 3 0 <<< 0x20 |||
         ext.getD 4 0 <<< 0x18 ||| ext.getD 5 0 <<< 0x10 |||
         ext.getD 6 0 <<< 0x08 ||| ext.getD 7 0) r
  else
    afterLength pcap payloadLength rest

/-- The `for` loop of `connImpl.Read`: read a 2-byte header, take the low
4 bits of byte 0 as the opcode and the low 7 bits of byte 1 as the base
length, then dispatch.  Text/binary frames are decoded and delivered;
ping/pong falls through the `switch` (the body is a TODO) and loops;
close and unknown opcodes return distinct errors.  `pcap` is `len(p)`. -/
def readLoop (pcap : Nat) : List Nat → ReadOutcome
  | b0 :: b1 :: rest =>
    let opCode := b0 &&& 0x0F
    let payloadLength := b1 &&& 0x7F
    if opCode = opCodeText ∨ opCode = opCodeBinary then
      readLenThen pcap payloadLength rest
    else if opCode = opCodePing ∨ opCode = opCodePong then
      readLoop pcap rest
    else if opCode = opCodeClose then
      ⟨0, [], [], rest, some .connectionClosed⟩
    else
      ⟨0, [], [], rest, some .unknownOpcode⟩
  | s => ioOutcome s

/-- `connImpl.Read`: serve from the leftover buffer when it is non-nil
(`copy(p, c.buffer)`, then shrink or clear it), otherwise enter the frame
decode loop.  `buffer` is `c.buffer` on entry, `pcap` is `len(p)`. -/
def connRead (buffer : List Nat) (pcap : Nat) (s : List Nat) : ReadOutcome :=
  if buffer ≠ [] then
    let n := min pcap buffer.length
    ⟨n, buffer.take n, buffer.drop n, s, none⟩
  else
    readLoop pcap s

/-- `k` successive calls to `connImpl.Read` with a destination of size
`pcap`, threading the leftover buffer and the transport; `none` as soon as
one call returns an error, otherwise the list of delivered chunks and the
final buffer and transport. -/
def readCalls (pcap : Nat) : Nat → List Nat → List Nat → Option (List (List Nat) × List Nat × List Nat)
  | 0, buf, s => some ([], buf, s)
  | k + 1, buf, s =>
    let o := connRead buf pcap s
    match o.err with
    | some _ => none
    | none =>
      match readCalls pcap k o.buffer o.stream with
      | none => none
      | some (cs, bf, sf) => some (o.data :: cs, bf, sf)

/-! ### Encode (source: `getDataFrame`) -/

/-- `getDataFrame`: the frame header for a payload of `size` bytes —
`0x80 | opCodeText`, then a literal length (`<= 125`), or `126` plus a
2-byte big-endian length (`<= 65535`), or `127` plus an 8-byte big-endian
length.  `byte(x)` truncation is `% 256`. -/
def getDataFrame (size : Nat) : List Nat :=
  let b0 := 0x80 ||| (opCodeText &&& 0x0F)
  if size ≤ 125 then
    [b0, size % 256]
  else if size ≤ 65535 then
    [b0, 126, (size >>> 0x08) % 256, size &&& 0xFF]
  else
    [b0, 127,
     (size >>> 0x38) % 256, (size >>> 0x30) % 256, (size >>> 0x28) % 256,
     (size >>> 0x20) % 256, (size >>> 0x18) % 256, (size >>> 0x10) % 256,
     (size >>> 0x08) % 256, size &&& 0xFF]

/-- The big-endian value of a byte sequence (specification-side reading of
"big-endian extended length"). -/
def beBytesVal (l : List Nat) : Nat := l.foldl (fun a b => 256 * a + b) 0

/-! ### SHA-1 and base64 (source: `hashKey`, via crypto/sha1 and
encoding/base64) -/

/-- Rotate a 32-bit word left by `n`. -/
def rotl32 (n x : Nat) : Nat := ((x <<< n) ||| (x >>> (32 - n))) % 2 ^ 32

/-- The 8-byte big-endian encoding of a 64-bit value (SHA-1 length field). -/
def be8Bytes (n : Nat) : List Nat :=
  [(n >>> 56) % 256, (n >>> 48) % 256, (n >>> 40) % 256, (n >>> 32) % 256,
   (n >>> 24) % 256, (n >>> 16) % 256, (n >>> 8) % 256, n % 256]

/-- SHA-1 message padding: append `0x80`, zero bytes up to 56 mod 64, and
the 8-byte big-endian bit length. -/
def sha1Pad (msg : List Nat) : List Nat :=
  let l := msg.length
  let padLen := (119 - l % 64) % 64
  msg ++ [0x80] ++ List.replicate padLen 0 ++ be8Bytes (8 * l)

/-- Split a byte sequence into 64-byte chunks (structural recursion on a
fuel argument so that the kernel can evaluate it; the fuel — the input
length — always suffices since every step consumes at least one byte). -/
def chunks64Aux : Nat → List Nat → List (List Nat)
  | _, [] => []
  | 0, _ :: _ => []
  | fuel + 1, a :: l => (a :: l).take 64 :: chunks64Aux fuel ((a :: l).drop 64)

/-- Split a byte sequence into 64-byte chunks. -/
def chunks64 (l : List Nat) : List (List Nat) := chunks64Aux l.length l

/-- The 16 initial 32-bit big-endian words of a 64-byte block. -/
def sha1Words (block : List Nat) : List Nat :=
  (List.range 16).map fun i => beBytesVal ((block.drop (4 * i)).take 4)

/-- Extend 16 schedule words to 80 via the SHA-1 recurrence. -/
def sha1Extend (w : List Nat) : List Nat :=
  (List.range 64).foldl
    (fun w _ =>
      w ++ [rotl32 1 (w.getD (w.length - 3) 0 ^^^ w.getD (w.length - 8) 0 ^^^
        w.getD (w.length - 14) 0 ^^^ w.getD (w.length - 16) 0)])
    w

/-- SHA-1 round function. -/
def sha1F (i b c d : Nat) : Nat :=
  if i < 20 then (b &&& c) ||| ((b ^^^ 0xFFFFFFFF) &&& d)
  else if i < 40 then b ^^^ c ^^^ d
  else if i < 60 then (b &&& c) ||| (b &&& d) ||| (c &&& d)
  else b ^^^ c ^^^ d

/-- SHA-1 round constants. -/
def sha1K (i : Nat) : Nat :=
  if i < 20 then 0x5A827999
  else if i < 40 then 0x6ED9EBA1
  else if i < 60 then 0x8F1BBCDC
  else 0xCA62C1D6

/-- Compress one 64-byte block into the running 5-word state. -/
def sha1Block (h : List Nat) (block : List Nat) : List Nat :=
  let w := sha1Extend (sha1Words block)
  let init : Nat × Nat × Nat × Nat × Nat :=
    (h.getD 0 0, h.getD 1 0, h.getD 2 0, h.getD 3 0, h.getD 4 0)
  let st := (List.range 80).foldl
    (fun (st : Nat × Nat × Nat × Nat × Nat) i =>
      let a := st.1
      let b := st.2.1
      let c := st.2.2.1
      let d := st.2.2.2.1
      let e := st.2.2.2.2
      let temp := (rotl32 5 a + sha1F i b c d + e + sha1K i + w.getD i 0) % 2 ^ 32
      (temp, a, rotl32 30 b, c, d))
    init
  [(h.getD 0 0 + st.1) % 2 ^ 32, (h.getD 1 0 + st.2.1) % 2 ^ 32,
   (h.getD 2 0 + st.2.2.1) % 2 ^ 32, (h.getD 3 0 + st.2.2.2.1) % 2 ^ 32,
   (h.getD 4 0 + st.2.2.2.2) % 2 ^ 32]

/-- SHA-1 of a byte sequence, as its 20-byte big-endian digest. -/
def sha1 (msg : List Nat) : List Nat :=
  let hs := (chunks64 (sha1Pad msg)).foldl sha1Block
    [0x67452301, 0xEFCDAB89, 0x98BADCFE, 0x10325476, 0xC3D2E1F0]
  hs.foldr
    (fun w acc => (w >>> 24) % 256 :: (w >>> 16) % 256 :: (w >>> 8) % 256 ::
      w % 256 :: acc)
    []

/-- The standard base64 alphabet (`base64.StdEncoding`). -/
def b64Chars : List Char :=
  "ABCDEFGHIJKLMNOPQRSTUVWXYZabcdefghijklmnopqrstuvwxyz0123456789+/".data

/-- Index into the base64 alphabet. -/
def b64Char (n : Nat) : Char := b64Chars.getD n 'A'

/-- Standard base64 encoding with `=` padding. -/
def b64Encode : List Nat → List Char
  | [] => []
  | [a] => [b64Char (a >>> 2), b64Char ((a &&& 3) <<< 4), '=', '=']
  | [a, b] =>
    [b64Char (a >>> 2), b64Char (((a &&& 3) <<< 4) ||| (b >>> 4)),
     b64Char ((b &&& 15) <<< 2), '=']
  | a :: b :: c :: rest =>
    b64Char (a >>> 2) :: b64Char (((a &&& 3) <<< 4) ||| (b >>> 4)) ::
      b64Char (((b &&& 15) <<< 2) ||| (c >>> 6)) :: b64Char (c &&& 63) ::
      b64Encode rest

/-- The bytes of a string (ASCII here, matching Go's `[]byte(s)`). -/
def strBytes (s : String) : List Nat := s.data.map Char.toNat

/-- `hashKey`: SHA-1 of the request key concatenated with the magic GUID,
base64 encoded. -/
def hashKey (key : String) : String :=
  String.mk (b64Encode (sha1 (strBytes (key ++ magicWebsocketGUID))))

/-! ### Handshake (source: `Upgrade`) -/

/-- The request headers `Upgrade` inspects (`r.Header.Get` values; a missing
header reads as the empty string). -/
structure Header where
  connection : String
  upgrade : String
  secWebSocketVersion : String
  secWebSocketKey : String

/-- The distinct error values `Upgrade` can return: one per failed
validation, plus a failure of the hijack itself. -/
inductive UpgradeError where
  | missingConnectionHeader
  | missingUpgradeHeader
  | invalidVersion
  | missingSecWebSocketKey
  | hijackFailed
  deriving DecidableEq, Repr

/-- The `errors.New` message of each validation error in the source
(the hijack error is whatever `Hijack` returned; a placeholder here). -/
def upgradeErrorMessage : UpgradeError → String
  | .missingConnectionHeader => "missing 'connection' header"
  | .missingUpgradeHeader => "missing 'upgrade' header"
  | .invalidVersion => "invalid version"
  | .missingSecWebSocketKey => "missing 'sec-websocket-key' header"
  | .hijackFailed => "hijack failed"

deriving instance DecidableEq for Except

/-- What a call to `Upgrade` did: the returned value (accept key standing
for the built connection) or error, and whether `Hijack` was invoked on the
response controller. -/
structure UpgradeOutcome where
  result : Except UpgradeError String
  hijackAttempted : Bool
  deriving DecidableEq, Repr

/-- `Upgrade`: validate the four headers in source order, then hash the key,
write the 101 response and hijack the transport.  `hijackOk` abstracts
whether the `Hijack` call itself succeeds. -/
def Upgrade (h : Header) (hijackOk : Bool) : UpgradeOutcome :=
  if h.connection ≠ "Upgrade" then ⟨.error .missingConnectionHeader, false⟩
  else if h.upgrade ≠ "websocket" then ⟨.error .missingUpgradeHeader, false⟩
  else if h.secWebSocketVersion ≠ "13" then ⟨.error .invalidVersion, false⟩
  else if h.secWebSocketKey = "" then ⟨.error .missingSecWebSocketKey, false⟩
  else if hijackOk then ⟨.ok (hashKey h.secWebSocketKey), true⟩
  else ⟨.error .hijackFailed, true⟩

/-! ### Helper lemmas: masking -/

theorem applyMaskAux_length (mask : List Nat) (i : Nat) (l : List Nat) :
    (applyMaskAux mask i l).length = l.length := by
  induction l generalizing i with
  | nil => rfl
  | cons b bs ih => simp [applyMaskAux, ih]

theorem applyMask_length (mask l : List Nat) :
    (applyMask mask l).length = l.length :=
  applyMaskAux_length mask 0 l

theorem applyMaskAux_applyMaskAux (mask : List Nat) (i : Nat) (l : List Nat) :
    applyMaskAux mask i (applyMaskAux mask i l) = l := by
  induction l generalizing i with
  | nil => rfl
  | cons b bs ih => simp [applyMaskAux, ih, Nat.xor_cancel_right]

theorem applyMask_applyMask (mask l : List Nat) :
    applyMask mask (applyMask mask l) = l :=
  applyMaskAux_applyMaskAux mask 0 l

/-! ### Helper lemmas: exact reads -/

theorem readExact_append (k : Nat) (l r : List Nat) (h : l.length = k) :
    readExact k (l ++ r) = some (l, r) := by
  unfold readExact
  rw [if_pos (by simp [← h])]
  rw [List.take_left' h, List.drop_left' h]

theorem readExact_short (k : Nat) (s : List Nat) (h : s.length < k) :
    readExact k s = none := by
  unfold readExact
  rw [if_neg (by omega)]

/-! ### Helper lemmas: bit recomposition -/

theorem testBit_two_pow_mul_add_lt (a b k i : Nat) (h : i < k) :
    Nat.testBit (2 ^ k * a + b) i = Nat.testBit b i := by
  induction a with
  | zero => simp
  | succ a ih =>
    have : 2 ^ k * (a + 1) + b = 2 ^ k + (2 ^ k * a + b) := by ring
    rw [this, Nat.testBit_two_pow_add_gt h, ih]

theorem lor_eq_add (a b k : Nat) (hb : b < 2 ^ k) : a <<< k ||| b = a <<< k + b := by
  apply Nat.eq_of_testBit_eq
  intro i
  rcases Nat.lt_or_ge i k with hik | hik
  · rw [Nat.testBit_lor, Nat.testBit_shiftLeft]
    have h1 : ¬ i ≥ k := by omega
    simp only [h1, decide_False, Bool.false_and, Bool.false_or]
    rw [Nat.shiftLeft_eq, Nat.mul_comm, testBit_two_pow_mul_add_lt a b k i hik]
  · rw [Nat.testBit_lor, Nat.testBit_shiftLeft]
    have h1 : i ≥ k := hik
    have hbi : Nat.testBit b i = false :=
      Nat.testBit_lt_two_pow (Nat.lt_of_lt_of_le hb (Nat.pow_le_pow_right (by omega) hik))
    simp only [h1, decide_True, Bool.true_and, hbi, Bool.or_false]
    rw [Nat.shiftLeft_eq]
    obtain ⟨j, rfl⟩ : ∃ j, i = k + j := ⟨i - k, by omega⟩
    rw [Nat.testBit_to_div_mod, Nat.testBit_to_div_mod]
    have hsplit : 2 ^ (k + j) = 2 ^ k * 2 ^ j := by rw [Nat.pow_add]
    rw [hsplit, ← Nat.div_div_eq_div_mul, Nat.add_comm (a * 2 ^ k) b,
        Nat.add_mul_div_right _ _ (Nat.two_pow_pos k),
        Nat.div_eq_of_lt hb, Nat.zero_add, Nat.add_sub_cancel_left]

theorem lor2_eq (e0 e1 : Nat) (h1 : e1 < 256) :
    e0 <<< 0x08 ||| e1 = 256 * e0 + e1 := by
  rw [lor_eq_add e0 e1 8 (by omega), Nat.shiftLeft_eq]
  ring

theorem lor8_eq (e0 e1 e2 e3 e4 e5 e6 e7 : Nat)
    (_h0 : e0 < 256) (h1 : e1 < 256) (h2 : e2 < 256) (h3 : e3 < 256)
    (h4 : e4 < 256) (h5 : e5 < 256) (h6 : e6 < 256) (h7 : e7 < 256) :
    e0 <<< 0x38 ||| e1 <<< 0x30 ||| e2 <<< 0x28 ||| e3 <<< 0x20 |||
      e4 <<< 0x18 ||| e5 <<< 0x10 ||| e6 <<< 0x08 ||| e7 =
    2 ^ 56 * e0 + 2 ^ 48 * e1 + 2 ^ 40 * e2 + 2 ^ 32 * e3 +
      2 ^ 24 * e4 + 2 ^ 16 * e5 + 2 ^ 8 * e6 + e7 := by
  have t6 : e6 <<< 0x08 ||| e7 = e6 <<< 8 + e7 :=
    lor_eq_add _ _ _ (by omega)
  have t5 : e5 <<< 0x10 ||| (e6 <<< 8 + e7) = e5 <<< 16 + (e6 <<< 8 + e7) :=
    lor_eq_add _ _ _ (by rw [Nat.shiftLeft_eq]; omega)
  have t4 : e4 <<< 0x18 ||| (e5 <<< 16 + (e6 <<< 8 + e7)) =
      e4 <<< 24 + (e5 <<< 16 + (e6 <<< 8 + e7)) :=
    lor_eq_add _ _ _ (by rw [Nat.shiftLeft_eq, Nat.shiftLeft_eq]; omega)
  have t3 : e3 <<< 0x20 ||| (e4 <<< 24 + (e5 <<< 16 + (e6 <<< 8 + e7))) =
      e3 <<< 32 + (e4 <<< 24 + (e5 <<< 16 + (e6 <<< 8 + e7))) :=
    lor_eq_add _ _ _
      (by rw [Nat.shiftLeft_eq, Nat.shiftLeft_eq, Nat.shiftLeft_eq]; omega)
  have t2 : e2 <<< 0x28 |||
      (e3 <<< 32 + (e4 <<< 24 + (e5 <<< 16 + (e6 <<< 8 + e7)))) =
      e2 <<< 40 + (e3 <<< 32 + (e4 <<< 24 + (e5 <<< 16 + (e6 <<< 8 + e7)))) :=
    lor_eq_add _ _ _
      (by rw [Nat.shiftLeft_eq, Nat.shiftLeft_eq, Nat.shiftLeft_eq,
              Nat.shiftLeft_eq]; omega)
  have t1 : e1 <<< 0x30 |||
      (e2 <<< 40 + (e3 <<< 32 + (e4 <<< 24 + (e5 <<< 16 + (e6 <<< 8 + e7))))) =
      e1 <<< 48 +
        (e2 <<< 40 + (e3 <<< 32 + (e4 <<< 24 + (e5 <<< 16 + (e6 <<< 8 + e7))))) :=
    lor_eq_add _ _ _
      (by rw [Nat.shiftLeft_eq, Nat.shiftLeft_eq, Nat.shiftLeft_eq,
              Nat.shiftLeft_eq, Nat.shiftLeft_eq]; omega)
  have t0 : e0 <<< 0x38 |||
      (e1 <<< 48 +
        (e2 <<< 40 + (e3 <<< 32 + (e4 <<< 24 + (e5 <<< 16 + (e6 <<< 8 + e7)))))) =
      e0 <<< 56 +
        (e1 <<< 48 +
          (e2 <<< 40 + (e3 <<< 32 + (e4 <<< 24 + (e5 <<< 16 + (e6 <<< 8 + e7)))))) :=
    lor_eq_add _ _ _
      (by rw [Nat.shiftLeft_eq, Nat.shiftLeft_eq, Nat.shiftLeft_eq,
              Nat.shiftLeft_eq, Nat.shiftLeft_eq, Nat.shiftLeft_eq]; omega)
  simp only [Nat.lor_assoc, t6, t5, t4, t3, t2, t1, t0]
  simp only [Nat.shiftLeft_eq]
  ring

theorem beBytesVal2 (e0 e1 : Nat) :
    beBytesVal [e0, e1] = 256 * e0 + e1 := by
  simp [beBytesVal, List.foldl]

theorem beBytesVal8 (e0 e1 e2 e3 e4 e5 e6 e7 : Nat) :
    beBytesVal [e0, e1, e2, e3, e4, e5, e6, e7] =
    2 ^ 56 * e0 + 2 ^ 48 * e1 + 2 ^ 40 * e2 + 2 ^ 32 * e3 +
      2 ^ 24 * e4 + 2 ^ 16 * e5 + 2 ^ 8 * e6 + e7 := by
  simp [beBytesVal, List.foldl]
  ring

/-! ### Helper lemmas: structure of the decode loop -/

theorem readLoop_cons (pcap b0 b1 : Nat) (rest : List Nat) :
    readLoop pcap (b0 :: b1 :: rest) =
      if b0 &&& 0x0F = opCodeText ∨ b0 &&& 0x0F = opCodeBinary then
        readLenThen pcap (b1 &&& 0x7F) rest
      else if b0 &&& 0x0F = opCodePing ∨ b0 &&& 0x0F = opCodePong then
        readLoop pcap rest
      else if b0 &&& 0x0F = opCodeClose then
        ⟨0, [], [], rest, some .connectionClosed⟩
      else
        ⟨0, [], [], rest, some .unknownOpcode⟩ := by
  rfl

theorem afterLength_ok (pcap plen : Nat) (mask masked rest : List Nat)
    (hm : mask.length = 4) (hk : masked.length = plen) :
    afterLength pcap plen (mask ++ (masked ++ rest)) =
      if plen > pcap then
        ⟨pcap, (applyMask mask masked).take pcap,
         (applyMask mask masked).drop pcap, rest, none⟩
      else
        ⟨plen, applyMask mask masked, [], rest, none⟩ := by
  simp only [afterLength, readExact_append 4 mask (masked ++ rest) hm,
    readExact_append plen masked rest hk]
  by_cases h : pcap < plen
  · simp [h]
  · simp [h, applyMask_length, hk]

/-- Low 7 bits of a byte `<= 125` are the byte itself. -/
theorem land127_of_le (s : Nat) (h : s ≤ 125) : s &&& 0x7F = s := by
  have h2 := Nat.and_pow_two_sub_one_eq_mod s 7
  norm_num at h2
  omega

/-- `x &&& 0xFF` is `x % 256`. -/
theorem land255_eq_mod (s : Nat) : s &&& 0xFF = s % 256 := by
  have h2 := Nat.and_pow_two_sub_one_eq_mod s 8
  norm_num at h2
  omega

/-- Base length 126: the next two transport bytes form the extended length
(definitional unfolding of `readLenThen`). -/
theorem readLenThen_126 (pcap e0 e1 : Nat) (tail : List Nat) :
    readLenThen pcap 126 (e0 :: e1 :: tail) =
      afterLength pcap (e0 <<< 0x08 ||| e1) tail := by
  unfold readLenThen
  rw [if_pos rfl]
  unfold readExact
  rw [if_pos (by simp)]
  simp [List.take, List.drop]

/-- Base length 127: the next eight transport bytes form the extended length
(definitional unfolding of `readLenThen`). -/
theorem readLenThen_127 (pcap e0 e1 e2 e3 e4 e5 e6 e7 : Nat) (tail : List Nat) :
    readLenThen pcap 127 (e0 :: e1 :: e2 :: e3 :: e4 :: e5 :: e6 :: e7 :: tail) =
      afterLength pcap
        (e0 <<< 0x38 ||| e1 <<< 0x30 ||| e2 <<< 0x28 ||| e3 <<< 0x20 |||
         e4 <<< 0x18 ||| e5 <<< 0x10 ||| e6 <<< 0x08 ||| e7) tail := by
  unfold readLenThen
  rw [if_neg (by omega), if_pos rfl]
  unfold readExact
  rw [if_pos (by simp)]
  simp [List.take, List.drop]

/-- Decoding a frame built from `getDataFrame size`, a 4-byte mask key, and
the payload masked with that key, recovers the payload in full when the
destination holds at least `size` bytes. -/
theorem readLoop_getDataFrame (size pcap : Nat) (payload mask rest : List Nat)
    (hp : payload.length = size) (hm : mask.length = 4)
    (hcap : size ≤ pcap) (hsz : size < 2 ^ 64) :
    readLoop pcap (getDataFrame size ++ (mask ++ (applyMask mask payload ++ rest))) =
      ⟨size, payload, [], rest, none⟩ := by
  have hmlen : (applyMask mask payload).length = size := by
    rw [applyMask_length, hp]
  have hinv : applyMask mask (applyMask mask payload) = payload :=
    applyMask_applyMask mask payload
  have hcap2 : ¬ pcap < size := by omega
  rcases le_or_lt size 125 with h1 | h1
  · have hframe : getDataFrame size = [0x81, size] := by
      unfold getDataFrame
      rw [if_pos h1, Nat.mod_eq_of_lt (show size < 256 by omega)]
      rw [(by decide : (0x80 : Nat) ||| (opCodeText &&& 0x0F) = 0x81)]
    rw [hframe]
    simp only [List.cons_append, List.nil_append]
    rw [readLoop_cons]
    rw [if_pos (Or.inl (by decide))]
    rw [land127_of_le size h1]
    unfold readLenThen
    rw [if_neg (by omega), if_neg (by omega)]
    rw [afterLength_ok pcap size mask (applyMask mask payload) rest hm hmlen]
    rw [if_neg hcap2, hinv]
  · rcases le_or_lt size 65535 with h2 | h2
    · have hframe : getDataFrame size =
          [0x81, 126, (size >>> 0x08) % 256, size &&& 0xFF] := by
        unfold getDataFrame
        rw [if_neg (by omega), if_pos h2]
        rw [(by decide : (0x80 : Nat) ||| (opCodeText &&& 0x0F) = 0x81)]
      rw [hframe]
      simp only [List.cons_append, List.nil_append]
      rw [readLoop_cons]
      rw [if_pos (Or.inl (by decide))]
      rw [(by decide : (126 : Nat) &&& 0x7F = 126)]
      rw [readLenThen_126]
      have hplen : ((size >>> 0x08) % 256) <<< 0x08 ||| (size &&& 0xFF) = size := by
        rw [lor2_eq _ _ (by rw [land255_eq_mod]; omega)]
        rw [land255_eq_mod, Nat.shiftRight_eq_div_pow]
        norm_num
        omega
      rw [hplen]
      rw [afterLength_ok pcap size mask (applyMask mask payload) rest hm hmlen]
      rw [if_neg hcap2, hinv]
    · have hframe : getDataFrame size =
          [0x81, 127,
           (size >>> 0x38) % 256, (size >>> 0x30) % 256, (size >>> 0x28) % 256,
           (size >>> 0x20) % 256, (size >>> 0x18) % 256, (size >>> 0x10) % 256,
           (size >>> 0x08) % 256, size &&& 0xFF] := by
        unfold getDataFrame
        rw [if_neg (by omega), if_neg (by omega)]
        rw [(by decide : (0x80 : Nat) ||| (opCodeText &&& 0x0F) = 0x81)]
      rw [hframe]
      simp only [List.cons_append, List.nil_append]
      rw [readLoop_cons]
      rw [if_pos (Or.inl (by decide))]
      rw [(by decide : (127 : Nat) &&& 0x7F = 127)]
      rw [readLenThen_127]
      have hplen : ((size >>> 0x38) % 256) <<< 0x38 |||
          ((size >>> 0x30) % 256) <<< 0x30 ||| ((size >>> 0x28) % 256) <<< 0x28 |||
          ((size >>> 0x20) % 256) <<< 0x20 ||| ((size >>> 0x18) % 256) <<< 0x18 |||
          ((size >>> 0x10) % 256) <<< 0x10 ||| ((size >>> 0x08) % 256) <<< 0x08 |||
          (size &&& 0xFF) = size := by
        rw [lor8_eq _ _ _ _ _ _ _ _
          (Nat.mod_lt _ (by omega)) (Nat.mod_lt _ (by omega))
          (Nat.mod_lt _ (by omega)) (Nat.mod_lt _ (by omega))
          (Nat.mod_lt _ (by omega)) (Nat.mod_lt _ (by omega))
          (Nat.mod_lt _ (by omega)) (by rw [land255_eq_mod]; omega)]
        rw [land255_eq_mod]
        simp only [Nat.shiftRight_eq_div_pow]
        norm_num
        omega
      rw [hplen]
      rw [afterLength_ok pcap size mask (applyMask mask payload) rest hm hmlen]
      rw [if_neg hcap2, hinv]

/-! ### Helper lemmas: error outcomes carry no data and leave the buffer
empty -/

theorem afterLength_shape (pcap plen : Nat) (s : List Nat) :
    (afterLength pcap plen s).err = none ∨
    ((afterLength pcap plen s).n = 0 ∧ (afterLength pcap plen s).data = [] ∧
     (afterLength pcap plen s).buffer = []) := by
  unfold afterLength
  rcases h4 : readExact 4 s with _ | ⟨mask, s1⟩
  · right; simp [h4, ioOutcome]
  · rcases hp : readExact plen s1 with _ | ⟨masked, s2⟩
    · right; simp [h4, hp, ioOutcome]
    · by_cases hc : pcap < plen
      · left; simp [h4, hp, hc]
      · left; simp [h4, hp, hc]

theorem readLenThen_shape (pcap plen : Nat) (rest : List Nat) :
    (readLenThen pcap plen rest).err = none ∨
    ((readLenThen pcap plen rest).n = 0 ∧ (readLenThen pcap plen rest).data = [] ∧
     (readLenThen pcap plen rest).buffer = []) := by
  unfold readLenThen
  by_cases h126 : plen = 0x7E
  · rw [if_pos h126]
    rcases h2 : readExact 2 rest with _ | ⟨ext, r⟩
    · right; simp [ioOutcome]
    · exact afterLength_shape _ _ _
  · rw [if_neg h126]
    by_cases h127 : plen = 0x7F
    · rw [if_pos h127]
      rcases h8 : readExact 8 rest with _ | ⟨ext, r⟩
      · right; simp [ioOutcome]
      · exact afterLength_shape _ _ _
    · rw [if_neg h127]
      exact afterLength_shape _ _ _

theorem readLoop_shape (pcap : Nat) (s : List Nat) :
    (readLoop pcap s).err = none ∨
    ((readLoop pcap s).n = 0 ∧ (readLoop pcap s).data = [] ∧
     (readLoop pcap s).buffer = []) := by
  have main : ∀ (fuel : Nat) (s : List Nat), s.length ≤ fuel →
      (readLoop pcap s).err = none ∨
      ((readLoop pcap s).n = 0 ∧ (readLoop pcap s).data = [] ∧
       (readLoop pcap s).buffer = []) := by
    intro fuel
    induction fuel with
    | zero =>
      intro s hs
      have : s = [] := List.eq_nil_of_length_eq_zero (by omega)
      subst this
      right; simp [readLoop, ioOutcome]
    | succ fuel ih =>
      intro s hs
      match s with
      | [] => right; simp [readLoop, ioOutcome]
      | [b] => right; simp [readLoop, ioOutcome]
      | b0 :: b1 :: rest =>
        rw [readLoop_cons]
        by_cases hc1 : b0 &&& 0x0F = opCodeText ∨ b0 &&& 0x0F = opCodeBinary
        · rw [if_pos hc1]; exact readLenThen_shape _ _ _
        · rw [if_neg hc1]
          by_cases hc2 : b0 &&& 0x0F = opCodePing ∨ b0 &&& 0x0F = opCodePong
          · rw [if_pos hc2]
            exact ih rest (by simp at hs; omega)
          · rw [if_neg hc2]
            by_cases hc3 : b0 &&& 0x0F = opCodeClose
            · rw [if_pos hc3]; right; exact ⟨rfl, rfl, rfl⟩
            · rw [if_neg hc3]; right; exact ⟨rfl, rfl, rfl⟩
  exact main s.length s (le_refl _)

/-! ### Helper lemmas: draining the leftover buffer -/

theorem readCalls_drain (pcap : Nat) (hpos : 0 < pcap) :
    ∀ (k : Nat) (buf s : List Nat), buf.length = pcap * k →
    ∃ cs, readCalls pcap k buf s = some (cs, [], s) ∧
      cs.length = k ∧ (∀ c ∈ cs, c.length = pcap) ∧ cs.flatten = buf := by
  intro k
  induction k with
  | zero =>
    intro buf s h
    have : buf = [] := List.eq_nil_of_length_eq_zero (by omega)
    subst this
    exact ⟨[], rfl, rfl, by simp, rfl⟩
  | succ k ih =>
    intro buf s h
    have hne : buf ≠ [] := by
      intro h0; rw [h0] at h; simp at h; omega
    have hmin : min pcap buf.length = pcap := by
      have : pcap * (k + 1) = pcap * k + pcap := by ring
      omega
    have hc : connRead buf pcap s = ⟨pcap, buf.take pcap, buf.drop pcap, s, none⟩ := by
      simp only [connRead, if_pos hne, hmin]
    have hdl : (buf.drop pcap).length = pcap * k := by
      simp only [List.length_drop]
      have : pcap * (k + 1) = pcap * k + pcap := by ring
      omega
    obtain ⟨cs, hcs, hlen, hall, hflat⟩ := ih (buf.drop pcap) s hdl
    refine ⟨buf.take pcap :: cs, ?_, by simp [hlen], ?_, ?_⟩
    · simp only [readCalls, hc, hcs]
    · intro c hc2
      rcases List.mem_cons.mp hc2 with rfl | htl
      · simp only [List.length_take]; omega
      · exact hall c htl
    · simp only [List.flatten_cons, hflat, List.take_append_drop]

/-! ### Claim theorems -/

/-- Claim C5: masking involution — for every 4-byte mask key and every
payload, applying the byte-wise cycled XOR mask (`payload[i] ^= key[i mod 4]`)
twice with the same key returns the original payload unchanged. -/
theorem c5_masking_involution (mask payload : List Nat)
    (_hm : mask.length = 4) :
    applyMask mask (applyMask mask payload) = payload :=
  applyMask_applyMask mask payload

theorem c5_masking_involution_witness :
    ([1, 2, 3, 4] : List Nat).length = 4 ∧
    applyMask [1, 2, 3, 4] (applyMask [1, 2, 3, 4] [5, 6, 7, 8, 9]) =
      [5, 6, 7, 8, 9] :=
  ⟨by decide, c5_masking_involution [1, 2, 3, 4] [5, 6, 7, 8, 9] (by decide)⟩

/-- Claim C7: leftover-buffer invariant — whenever the leftover buffer is
non-empty, `Read` serves bytes from it (no transport byte is consumed, no
error, the served chunk plus the new buffer is exactly the old buffer and
its size is `min pcap |buf|`); a new frame header is read (the decode loop
is entered) only when the leftover buffer is empty. -/
theorem c7_leftover_invariant (buf : List Nat) (pcap : Nat) (s : List Nat) :
    (buf ≠ [] →
      (connRead buf pcap s).stream = s ∧
      (connRead buf pcap s).err = none ∧
      (connRead buf pcap s).data ++ (connRead buf pcap s).buffer = buf ∧
      (connRead buf pcap s).data.length = min pcap buf.length ∧
      (connRead buf pcap s).n = min pcap buf.length) ∧
    (buf = [] → connRead buf pcap s = readLoop pcap s) := by
  constructor
  · intro hne
    have hcr : connRead buf pcap s =
        ⟨min pcap buf.length, buf.take (min pcap buf.length),
         buf.drop (min pcap buf.length), s, none⟩ := by
      simp only [connRead, if_pos hne]
    rw [hcr]
    exact ⟨rfl, rfl, List.take_append_drop _ buf,
      by simp only [List.length_take]; omega, rfl⟩
  · intro he
    simp [connRead, he]

theorem c7_leftover_invariant_witness :
    (connRead [1, 2] 1 [9]).stream = [9] ∧
    (connRead [1, 2] 1 [9]).err = none ∧
    (connRead [1, 2] 1 [9]).data ++ (connRead [1, 2] 1 [9]).buffer = [1, 2] ∧
    (connRead [1, 2] 1 [9]).data.length = min 1 ([1, 2] : List Nat).length ∧
    (connRead [1, 2] 1 [9]).n = min 1 ([1, 2] : List Nat).length :=
  (c7_leftover_invariant [1, 2] 1 [9]).1 (by decide)

/-- Claim C9: protocol-error dispatch — a close opcode (0x8) makes `Read`
fail with the distinct "connection closed" error (no bytes delivered, no
frame written back), any opcode outside text/binary/ping/pong/close makes it
fail with the distinct "unknown opcode" error, and the two error values are
distinct from each other and from the I/O error. -/
theorem c9_protocol_errors (b0 b1 pcap : Nat) (rest : List Nat) :
    (b0 &&& 0x0F = opCodeClose →
      readLoop pcap (b0 :: b1 :: rest) =
        ⟨0, [], [], rest, some ReadError.connectionClosed⟩) ∧
    (b0 &&& 0x0F ≠ opCodeText → b0 &&& 0x0F ≠ opCodeBinary →
     b0 &&& 0x0F ≠ opCodePing → b0 &&& 0x0F ≠ opCodePong →
     b0 &&& 0x0F ≠ opCodeClose →
      readLoop pcap (b0 :: b1 :: rest) =
        ⟨0, [], [], rest, some ReadError.unknownOpcode⟩) ∧
    ReadError.connectionClosed ≠ ReadError.unknownOpcode ∧
    ReadError.connectionClosed ≠ ReadError.ioError ∧
    ReadError.unknownOpcode ≠ ReadError.ioError := by
  refine ⟨?_, ?_, by decide, by decide, by decide⟩
  · intro h
    rw [readLoop_cons,
        if_neg (by simp [h, opCodeClose, opCodeText, opCodeBinary]),
        if_neg (by simp [h, opCodeClose, opCodePing, opCodePong]),
        if_pos h]
  · intro h1 h2 h3 h4 h5
    rw [readLoop_cons, if_neg (by tauto), if_neg (by tauto), if_neg h5]

theorem c9_protocol_errors_witness :
    readLoop 5 (0x88 :: 0x80 :: [9, 9]) =
      ⟨0, [], [], [9, 9], some ReadError.connectionClosed⟩ ∧
    readLoop 5 (0x83 :: 0x80 :: [7]) =
      ⟨0, [], [], [7], some ReadError.unknownOpcode⟩ :=
  ⟨(c9_protocol_errors 0x88 0x80 5 [9, 9]).1 (by decide),
   (c9_protocol_errors 0x83 0x80 5 [7]).2.1
     (by decide) (by decide) (by decide) (by decide) (by decide)⟩

/-- Claim C10: error atomicity of `Read` — a call that returns an error
returns count 0, delivers no bytes, and leaves the leftover buffer unchanged
(necessarily empty, since the decode loop only runs when the buffer is
empty and its error paths never assign the buffer); conversely a call served
from a non-empty leftover buffer never returns an error. -/
theorem c10_error_atomicity (buf : List Nat) (pcap : Nat) (s : List Nat) :
    (∀ e : ReadError, (connRead buf pcap s).err = some e →
      (connRead buf pcap s).n = 0 ∧ (connRead buf pcap s).data = [] ∧
      (connRead buf pcap s).buffer = buf ∧ buf = []) ∧
    (buf ≠ [] → (connRead buf pcap s).err = none) := by
  constructor
  · intro e he
    by_cases hb : buf = []
    · subst hb
      have hcr : connRead [] pcap s = readLoop pcap s := by
        simp [connRead]
      rw [hcr] at he ⊢
      rcases readLoop_shape pcap s with h | h
      · rw [h] at he; cases he
      · exact ⟨h.1, h.2.1, h.2.2, rfl⟩
    · have : (connRead buf pcap s).err = none := by
        simp only [connRead, if_pos hb]
      rw [this] at he; cases he
  · intro hne
    simp only [connRead, if_pos hne]

theorem c10_error_atomicity_witness :
    (connRead [] 5 [0x88, 0x80]).n = 0 ∧ (connRead [] 5 [0x88, 0x80]).data = [] ∧
    (connRead [] 5 [0x88, 0x80]).buffer = [] ∧ ([] : List Nat) = [] :=
  (c10_error_atomicity [] 5 [0x88, 0x80]).1 ReadError.connectionClosed (by decide)

/-- Claim C1 (counterexample): feeding the bytes produced by encode —
`getDataFrame` header followed directly by the payload — into the `Read`
frame parser does not return the payload: the decoder unconditionally reads
a 4-byte mask key that encode never emits, so for payload `[65]` of length 1
the decode fails with an I/O error (short read) instead of yielding `[65]`. -/
theorem c1_round_trip_counterexample :
    readLoop 100 (getDataFrame 1 ++ [65]) =
      ⟨0, [], [], [65], some ReadError.ioError⟩ ∧
    (readLoop 100 (getDataFrame 1 ++ [65])).data ≠ [65] := by decide

/-- Claim C1 (amended): for every payload of length in
{0, 1, 125, 126, 65535, 65536}, feeding the `getDataFrame` header followed
by a 4-byte mask key and the payload masked with that key into the `Read`
frame parser yields back exactly the original payload (with a destination of
at least the payload length), and the length-indicator byte encode chose
matches the width rule: length `<= 125` literal, `126`–`65535` the 2-byte
big-endian extension after indicator 126, above that the 8-byte big-endian
extension after indicator 127. -/
theorem c1_round_trip_amended (L pcap : Nat) (payload mask rest : List Nat)
    (hL : L = 0 ∨ L = 1 ∨ L = 125 ∨ L = 126 ∨ L = 65535 ∨ L = 65536)
    (hp : payload.length = L) (hm : mask.length = 4) (hcap : L ≤ pcap) :
    readLoop pcap (getDataFrame L ++ (mask ++ (applyMask mask payload ++ rest))) =
      ⟨L, payload, [], rest, none⟩ ∧
    (getDataFrame L).getD 1 0 =
      (if L ≤ 125 then L else if L ≤ 65535 then 126 else 127) := by
  constructor
  · exact readLoop_getDataFrame L pcap payload mask rest hp hm hcap
      (by rcases hL with rfl | rfl | rfl | rfl | rfl | rfl <;> norm_num)
  · rcases hL with rfl | rfl | rfl | rfl | rfl | rfl <;> decide

theorem c1_round_trip_amended_witness :
    readLoop 126 (getDataFrame 126 ++
        ([1, 2, 3, 4] ++ (applyMask [1, 2, 3, 4] (List.replicate 126 7) ++ []))) =
      ⟨126, List.replicate 126 7, [], [], none⟩ ∧
    (getDataFrame 126).getD 1 0 =
      (if 126 ≤ 125 then 126 else if (126 : Nat) ≤ 65535 then 126 else 127) :=
  c1_round_trip_amended 126 126 (List.replicate 126 7) [1, 2, 3, 4] []
    (by norm_num) (by simp) (by decide) (by omega)

/-- Claim C8: the code does not discard a ping/pong frame's payload.  On a
ping (opcode 0x9) the loop consumes only the 2 header bytes — the TODO
branch — leaving the ping's mask key and payload on the transport, so the
next loop iteration misreads them as a frame header: here a ping whose wire
bytes continue with mask key `[4,4,4,4]` makes `Read` fail with "unknown
opcode" even though a well-formed text frame carrying `[65]` follows (second
conjunct: that same text frame parses fine on its own). -/
theorem c8_ping_payload_not_discarded :
    readLoop 100 [0x89, 0x80, 4, 4, 4, 4, 0x81, 0x81, 0, 0, 0, 0, 65] =
      ⟨0, [], [], [4, 4, 0x81, 0x81, 0, 0, 0, 0, 65],
       some ReadError.unknownOpcode⟩ ∧
    readLoop 100 [0x81, 0x81, 0, 0, 0, 0, 65] = ⟨1, [65], [], [], none⟩ := by
  decide

/-- Claim C2: decode algorithm for a text or binary frame — after the
2-byte header (low 4 bits of byte 0 the opcode, low 7 bits of byte 1 the
base length), a base length of 126 consumes exactly 2 extension bytes and
127 exactly 8, read big-endian, otherwise the base length is final; then
exactly 4 mask-key bytes and exactly `plen` payload bytes are consumed
(everything after them, `rest`, is untouched), and the payload is unmasked
via `payload[i] ^= maskKey[i mod 4]`.  The payload length is bounded by
`2^63`: that is the range representable in the Go signed `int` in which the
source computes it — for an 8-byte extension with the top bit set the source
instead wraps negative and panics at `make`, so the claim is only about the
representable domain. -/
theorem c2_decode_algorithm (b0 b1 pcap plen : Nat)
    (ext mask masked rest : List Nat)
    (hop : b0 &&& 0x0F = opCodeText ∨ b0 &&& 0x0F = opCodeBinary)
    (_hbound : plen < 2 ^ 63)
    (hm : mask.length = 4) (hmk : masked.length = plen)
    (hlen : (b1 &&& 0x7F < 126 ∧ ext = [] ∧ plen = b1 &&& 0x7F) ∨
            (b1 &&& 0x7F = 126 ∧ ext.length = 2 ∧ (∀ e ∈ ext, e < 256) ∧
              plen = beBytesVal ext) ∨
            (b1 &&& 0x7F = 127 ∧ ext.length = 8 ∧ (∀ e ∈ ext, e < 256) ∧
              plen = beBytesVal ext)) :
    readLoop pcap (b0 :: b1 :: (ext ++ (mask ++ (masked ++ rest)))) =
      if plen > pcap then
        ⟨pcap, (applyMask mask masked).take pcap,
         (applyMask mask masked).drop pcap, rest, none⟩
      else
        ⟨plen, applyMask mask masked, [], rest, none⟩ := by
  rw [readLoop_cons, if_pos hop]
  rcases hlen with ⟨hlt, rfl, hplen⟩ | ⟨heq, hel, hbyte, hplen⟩ |
    ⟨heq, hel, hbyte, hplen⟩
  · simp only [List.nil_append]
    unfold readLenThen
    rw [if_neg (by omega), if_neg (by omega), ← hplen]
    exact afterLength_ok pcap plen mask masked rest hm hmk
  · rw [heq]
    rcases ext with _ | ⟨e0, ext⟩
    · simp at hel
    rcases ext with _ | ⟨e1, ext⟩
    · simp at hel
    rcases ext with _ | ⟨x, ext⟩
    swap
    · simp at hel
    simp only [List.cons_append, List.nil_append]
    rw [readLenThen_126]
    have he1 : e1 < 256 := hbyte e1 (by simp)
    have hv : e0 <<< 0x08 ||| e1 = plen := by
      rw [lor2_eq e0 e1 he1, hplen, beBytesVal2]
    rw [hv]
    exact afterLength_ok pcap plen mask masked rest hm hmk
  · rw [heq]
    rcases ext with _ | ⟨e0, ext⟩
    · simp at hel
    rcases ext with _ | ⟨e1, ext⟩
    · simp at hel
    rcases ext with _ | ⟨e2, ext⟩
    · simp at hel
    rcases ext with _ | ⟨e3, ext⟩
    · simp at hel
    rcases ext with _ | ⟨e4, ext⟩
    · simp at hel
    rcases ext with _ | ⟨e5, ext⟩
    · simp at hel
    rcases ext with _ | ⟨e6, ext⟩
    · simp at hel
    rcases ext with _ | ⟨e7, ext⟩
    · simp at hel
    rcases ext with _ | ⟨x, ext⟩
    swap
    · simp at hel
    simp only [List.cons_append, List.nil_append]
    rw [readLenThen_127]
    have hv : e0 <<< 0x38 ||| e1 <<< 0x30 ||| e2 <<< 0x28 ||| e3 <<< 0x20 |||
        e4 <<< 0x18 ||| e5 <<< 0x10 ||| e6 <<< 0x08 ||| e7 = plen := by
      rw [lor8_eq e0 e1 e2 e3 e4 e5 e6 e7
        (hbyte e0 (by simp)) (hbyte e1 (by simp)) (hbyte e2 (by simp))
        (hbyte e3 (by simp)) (hbyte e4 (by simp)) (hbyte e5 (by simp))
        (hbyte e6 (by simp)) (hbyte e7 (by simp)), hplen, beBytesVal8]
    rw [hv]
    exact afterLength_ok pcap plen mask masked rest hm hmk

theorem c2_decode_algorithm_witness :
    readLoop 2 (0x82 :: 0xFE :: ([0, 3] ++ ([1, 1, 1, 1] ++ ([10, 11, 12] ++ [99])))) =
      if 3 > 2 then
        ⟨2, (applyMask [1, 1, 1, 1] [10, 11, 12]).take 2,
         (applyMask [1, 1, 1, 1] [10, 11, 12]).drop 2, [99], none⟩
      else
        ⟨3, applyMask [1, 1, 1, 1] [10, 11, 12], [], [99], none⟩ :=
  c2_decode_algorithm 0x82 0xFE 2 3 [0, 3] [1, 1, 1, 1] [10, 11, 12] [99]
    (by decide) (by decide) (by decide) (by decide)
    (Or.inr (Or.inl ⟨by decide, by decide, by decide, by decide⟩))

/-- Claim C6: partial-read reconstruction — a single frame carrying a
1000-byte payload, read through a 100-byte destination, is delivered in
exactly 10 successive `Read` calls, each returning a 100-byte chunk, whose
concatenation is the original payload in order (final leftover buffer
empty, transport fully consumed). -/
theorem c6_partial_read_reconstruction (payload mask : List Nat)
    (hp : payload.length = 1000) (hm : mask.length = 4) :
    ∃ cs, readCalls 100 10 []
        (getDataFrame 1000 ++ (mask ++ (applyMask mask payload ++ []))) =
        some (cs, [], []) ∧
      cs.length = 10 ∧ (∀ c ∈ cs, c.length = 100) ∧ cs.flatten = payload := by
  have hmlen : (applyMask mask payload).length = 1000 := by
    rw [applyMask_length, hp]
  have hinv := applyMask_applyMask mask payload
  have hframe : getDataFrame 1000 = [0x81, 126, 3, 232] := by decide
  have h1 : readLoop 100 (getDataFrame 1000 ++ (mask ++ (applyMask mask payload ++ []))) =
      ⟨100, payload.take 100, payload.drop 100, [], none⟩ := by
    rw [hframe]
    simp only [List.cons_append, List.nil_append]
    rw [readLoop_cons, if_pos (Or.inl (by decide)),
        (by decide : (126 : Nat) &&& 0x7F = 126), readLenThen_126,
        (by decide : (3 : Nat) <<< 0x08 ||| 232 = 1000),
        afterLength_ok 100 1000 mask (applyMask mask payload) [] hm hmlen,
        if_pos (by omega), hinv]
  have hcr : connRead [] 100 (getDataFrame 1000 ++ (mask ++ (applyMask mask payload ++ []))) =
      ⟨100, payload.take 100, payload.drop 100, [], none⟩ := by
    rw [← h1]
    simp [connRead]
  obtain ⟨cs, hcs, hlen, hall, hflat⟩ :=
    readCalls_drain 100 (by omega) 9 (payload.drop 100) []
      (by rw [List.length_drop, hp])
  refine ⟨payload.take 100 :: cs, ?_, by simp [hlen], ?_, ?_⟩
  · show readCalls 100 (9 + 1) [] _ = _
    rw [readCalls]
    simp only [hcr, hcs]
  · intro c hc2
    rcases List.mem_cons.mp hc2 with rfl | htl
    · simp only [List.length_take]; omega
    · exact hall c htl
  · simp only [List.flatten_cons, hflat, List.take_append_drop]

theorem c6_partial_read_reconstruction_witness :
    ∃ cs, readCalls 100 10 []
        (getDataFrame 1000 ++
          ([0, 0, 0, 0] ++ (applyMask [0, 0, 0, 0] (List.replicate 1000 7) ++ []))) =
        some (cs, [], []) ∧
      cs.length = 10 ∧ (∀ c ∈ cs, c.length = 100) ∧
      cs.flatten = List.replicate 1000 7 :=
  c6_partial_read_reconstruction (List.replicate 1000 7) [0, 0, 0, 0]
    (by simp) (by decide)

/-- Claim C3: handshake validation — `Upgrade` checks, in source order, that
`Connection` equals "Upgrade", `Upgrade` equals "websocket",
`Sec-WebSocket-Version` equals "13" and `Sec-WebSocket-Key` is non-empty;
each of the four failures yields its own distinct error (with four distinct
messages), and on every validation failure no connection is returned and the
hijack of the transport is never attempted. -/
theorem c3_handshake_validation (h : Header) (hijackOk : Bool) :
    ((Upgrade h hijackOk).result = .error .missingConnectionHeader ↔
      h.connection ≠ "Upgrade") ∧
    ((Upgrade h hijackOk).result = .error .missingUpgradeHeader ↔
      (h.connection = "Upgrade" ∧ h.upgrade ≠ "websocket")) ∧
    ((Upgrade h hijackOk).result = .error .invalidVersion ↔
      (h.connection = "Upgrade" ∧ h.upgrade = "websocket" ∧
       h.secWebSocketVersion ≠ "13")) ∧
    ((Upgrade h hijackOk).result = .error .missingSecWebSocketKey ↔
      (h.connection = "Upgrade" ∧ h.upgrade = "websocket" ∧
       h.secWebSocketVersion = "13" ∧ h.secWebSocketKey = "")) ∧
    (∀ e : UpgradeError, e ≠ .hijackFailed →
      (Upgrade h hijackOk).result = .error e →
      (Upgrade h hijackOk).hijackAttempted = false) ∧
    (upgradeErrorMessage .missingConnectionHeader ≠
      upgradeErrorMessage .missingUpgradeHeader ∧
     upgradeErrorMessage .missingConnectionHeader ≠
      upgradeErrorMessage .invalidVersion ∧
     upgradeErrorMessage .missingConnectionHeader ≠
      upgradeErrorMessage .missingSecWebSocketKey ∧
     upgradeErrorMessage .missingUpgradeHeader ≠
      upgradeErrorMessage .invalidVersion ∧
     upgradeErrorMessage .missingUpgradeHeader ≠
      upgradeErrorMessage .missingSecWebSocketKey ∧
     upgradeErrorMessage .invalidVersion ≠
      upgradeErrorMessage .missingSecWebSocketKey) := by
  refine ⟨?_, ?_, ?_, ?_, ?_, by decide⟩
  · unfold Upgrade; split_ifs <;> simp_all
  · unfold Upgrade; split_ifs <;> simp_all
  · unfold Upgrade; split_ifs <;> simp_all
  · unfold Upgrade; split_ifs <;> simp_all
  · unfold Upgrade; split_ifs <;> intro e he1 he2 <;> simp_all

theorem c3_handshake_validation_witness :
    (Upgrade ⟨"keep-alive", "websocket", "13", "abc"⟩ true).result =
      .error .missingConnectionHeader ∧
    (Upgrade ⟨"Upgrade", "websocket", "12", "abc"⟩ true).result =
      .error .invalidVersion ∧
    (Upgrade ⟨"Upgrade", "websocket", "12", "abc"⟩ true).hijackAttempted = false :=
  ⟨(c3_handshake_validation ⟨"keep-alive", "websocket", "13", "abc"⟩ true).1.mpr
      (by decide),
   ((c3_handshake_validation ⟨"Upgrade", "websocket", "12", "abc"⟩ true).2.2.1).mpr
      ⟨rfl, rfl, by decide⟩,
   (c3_handshake_validation ⟨"Upgrade", "websocket", "12", "abc"⟩ true).2.2.2.2.1
      UpgradeError.invalidVersion (by decide)
      (((c3_handshake_validation ⟨"Upgrade", "websocket", "12", "abc"⟩ true).2.2.1).mpr
        ⟨rfl, rfl, by decide⟩)⟩

/-- Claim C4: the accept key is a pure, deterministic function of the
request key, equal to `base64(SHA-1(key ++ magic GUID))`; in particular the
RFC 6455 sample key "dGhlIHNhbXBsZSBub25jZQ==" yields exactly
"s3pPLMBiTxaQ9kYGzzhZRbK+xOo=". -/
theorem c4_accept_key :
    hashKey "dGhlIHNhbXBsZSBub25jZQ==" = "s3pPLMBiTxaQ9kYGzzhZRbK+xOo=" ∧
    ∀ key : String, hashKey key =
      String.mk (b64Encode (sha1 (strBytes (key ++ magicWebsocketGUID)))) :=
  ⟨by decide, fun _ => rfl⟩
